import Mathlib

/-!
# Verification of the oplog-tailing summary pipeline

Shallow embedding of the Go program that tails a MongoDB oplog, extracts the
`_id` of inserted/updated `metrics.raw` documents, recomputes a seven-number
summary of the values of the raw series, and upserts it keyed by `(key, at)`.

Modelling conventions:
* `float64` values are modelled as exact rationals (`ℚ`).  Every concrete
  constant the claims exercise (the values 1..10 and the probabilities 0, 1
  and 0.50) is exactly representable in binary64 and all arithmetic the
  quantile routine performs on them (counting, `p * n` with these `p`) is
  exact, so the rational model agrees with the floating-point program on
  every input a claim touches.
* `bson.ObjectId` is represented by its hex string; `ObjectId.Hex` is then
  the identity and `bson.ObjectIdHex` its inverse.
* Go channels become lists (the finite sequence of values sent before the
  channel closes); a `panic` or a library panic becomes `none` / an error
  value of the enclosing function.
* `sort.Float64s` sorts a `[]float64` ascending in place; its result on a
  list of rationals is the unique ascending reordering, modelled with
  `List.insertionSort (· ≤ ·)`.
* `stat.Quantile(p, stat.Empirical, x, nil)` (gonum) is embedded faithfully:
  it panics outside `0 ≤ p ≤ 1` and on unsorted input, and otherwise scans
  the sorted sample returning the first element whose cumulative count
  reaches `p * len(x)`; on an empty slice the scan falls through to a panic.
-/

namespace OplogAbuse

/-! ## Data model and the summary computation -/

/-- One observation of the raw series (Go `Datapoint`): a timestamp
(modelled as `Int`; its value is never inspected) and a numeric value. -/
structure Datapoint where
  At : Int
  Value : ℚ
deriving DecidableEq

/-- Go `Raw`: a time-bucketed raw series — series key, bucket start time,
and the list of observations. -/
structure Raw where
  Key : String
  At : Int
  Values : List Datapoint
deriving DecidableEq

/-- Go `Summary`: the persisted seven-number summary document. -/
structure Summary where
  Key : String
  At : Int
  Min : ℚ
  Max : ℚ
  P2 : ℚ
  P9 : ℚ
  P25 : ℚ
  P50 : ℚ
  P75 : ℚ
  P91 : ℚ
  P98 : ℚ
deriving DecidableEq

/-- The scan loop of the gonum empirical quantile (nil weights): `cumsum`
is incremented by one for each element, and the first element whose
incremented `cumsum` reaches `fidx = p * n` is returned.  Falling off the
end (only possible for an empty slice, since `fidx ≤ n`) is the panic of
the library, modelled as `none`. -/
def empiricalQuantile (fidx : ℚ) : List ℚ → ℚ → Option ℚ
  | [], _ => none
  | x :: rest, cumsum =>
    if fidx ≤ cumsum + 1 then some x else empiricalQuantile fidx rest (cumsum + 1)

/-- `sort.Float64sAreSorted`: the ascending-sortedness check gonum performs
on the sample. -/
def float64sAreSorted (xs : List ℚ) : Bool :=
  decide (List.Sorted (· ≤ ·) xs)

/-- gonum `stat.Quantile(p, stat.Empirical, xs, nil)`: panics (`none`)
unless `0 ≤ p ≤ 1` and `xs` is sorted, else scans for the first sorted
value whose cumulative count reaches `p * len(xs)`. -/
def quantile (p : ℚ) (xs : List ℚ) : Option ℚ :=
  if p < 0 ∨ 1 < p then none
  else if float64sAreSorted xs then empiricalQuantile (p * xs.length) xs 0
  else none

/-- `sort.Float64s`: ascending in-place sort, modelled as the ascending
reordering of the list. -/
def sortFloat64s (xs : List ℚ) : List ℚ :=
  List.insertionSort (· ≤ ·) xs

/-- The quantile block of Go `rawToSummary`: the nine `stat.Quantile`
calls on the sorted values, in program order; a panic in any call aborts
the whole computation (`none`). -/
def summarize (key : String) (bucket : Int) (values : List ℚ) : Option Summary :=
  (quantile 0 values).bind fun mn =>
  (quantile 1 values).bind fun mx =>
  (quantile (2 / 100) values).bind fun p2 =>
  (quantile (9 / 100) values).bind fun p9 =>
  (quantile (25 / 100) values).bind fun p25 =>
  (quantile (50 / 100) values).bind fun p50 =>
  (quantile (75 / 100) values).bind fun p75 =>
  (quantile (91 / 100) values).bind fun p91 =>
  (quantile (98 / 100) values).bind fun p98 =>
  some { Key := key, At := bucket, Min := mn, Max := mx, P2 := p2,
         P9 := p9, P25 := p25, P50 := p50, P75 := p75, P91 := p91, P98 := p98 }

/-- Go `rawToSummary`: carries over key and bucket start time, copies the
observation values into a fresh slice, sorts it, and computes min, max and
the seven percentiles with the empirical quantile. -/
def rawToSummary (raw : Raw) : Option Summary :=
  summarize raw.Key raw.At (sortFloat64s (raw.Values.map Datapoint.Value))

/-- The raw series holding the sorted observation values 1..10, the
concrete input of the quantile-correctness property. -/
def raw10 : Raw :=
  { Key := "k", At := 0,
    Values := [⟨0, 1⟩, ⟨1, 2⟩, ⟨2, 3⟩, ⟨3, 4⟩, ⟨4, 5⟩,
               ⟨5, 6⟩, ⟨6, 7⟩, ⟨7, 8⟩, ⟨8, 9⟩, ⟨9, 10⟩] }

/-- The raw series with an empty observation list. -/
def rawEmpty : Raw := { Key := "k", At := 0, Values := [] }

/-! ## Persistence: the summary store and stats -/

/-- The `metrics.summary` collection, as the list of stored documents. -/
abbrev SummaryStore := List Summary

/-- Whether a stored document matches the upsert selector
`bson.M{"key": k, "at": a}`. -/
def matchesSelector (k : String) (a : Int) (s : Summary) : Bool :=
  s.Key == k && s.At == a

/-- mgo `Collection.Upsert` with a plain replacement document: replace the
first stored document matching the selector, or insert the document when
none matches. -/
def upsert (k : String) (a : Int) (doc : Summary) : SummaryStore → SummaryStore
  | [] => [doc]
  | t :: ts => if matchesSelector k a t then doc :: ts else t :: upsert k a doc ts

/-- The `metrics.raw` collection: entity ObjectId (hex) to raw series. -/
abbrev RawStore := List (String × Raw)

/-- `Find(bson.M{"_id": bson.ObjectIdHex(oid)}).One`: look the raw series
up by its entity id; `none` is the mgo ErrNotFound. -/
def findRaw (es : RawStore) (oid : String) : Option Raw :=
  (es.find? (fun p => p.1 == oid)).map Prod.snd

/-- The errors Go `stats` can return in this model: the raw document was
absent, or the quantile computation panicked (empty observation list). -/
inductive StatsErr where
  | notFound
  | quantilePanic
deriving DecidableEq

/-- Go `stats`: load the raw series by entity id, recompute its summary,
and upsert it with selector `{key: summary.Key, at: summary.At}`. -/
def stats (es : RawStore) (ss : SummaryStore) (oid : String) :
    Except StatsErr SummaryStore :=
  match findRaw es oid with
  | none => Except.error StatsErr.notFound
  | some raw =>
    match rawToSummary raw with
    | none => Except.error StatsErr.quantilePanic
    | some summary => Except.ok (upsert summary.Key summary.At summary ss)

/-- `n` consecutive recomputations for the same identifier against the
same raw snapshot, stopping at the first error. -/
def statsRepeat (es : RawStore) (oid : String) : Nat → SummaryStore →
    Except StatsErr SummaryStore
  | 0, ss => Except.ok ss
  | n + 1, ss =>
    match stats es ss oid with
    | Except.error e => Except.error e
    | Except.ok ss2 => statsRepeat es oid n ss2

/-! ## The oplog record and identifier extraction -/

/-- The bson values this program inspects.  `objectId` carries the hex
string of the 12-byte id: `ObjectId.Hex` is then the identity on the
carried string and `bson.ObjectIdHex` its inverse. -/
inductive BsonValue where
  | objectId (hex : String)
  | str (s : String)
  | int (n : Int)
  | doc (fields : List (String × BsonValue))

/-- A bson.M document, as an association list of fields. -/
abbrev BsonDoc := List (String × BsonValue)

/-- Field access `doc["name"]` on a bson.M, with the comma-ok idiom:
`none` when the field is absent. -/
def lookupField (d : BsonDoc) (k : String) : Option BsonValue :=
  (d.find? (fun f => f.1 == k)).map Prod.snd

/-- One document of the local.oplog.rs collection (Go `Oplog`).  The
timestamp (`bson.MongoTimestamp`) is an int64; `Object` is the operation
payload `o` and `QueryObject` the update selector `o2`. -/
structure Oplog where
  Timestamp : Int
  HistoryID : Int
  MongoVersion : Int
  Operation : String
  Namespace : String
  Object : BsonDoc
  QueryObject : BsonDoc

/-- One branch body of the loop of Go `oidCh`: read `_id` from the given
document; emit its hex representation only when the field is present and
the type assertion to `bson.ObjectId` succeeds. -/
def idOf (d : BsonDoc) : List String :=
  match lookupField d "_id" with
  | some (BsonValue.objectId hex) => [hex]
  | _ => []

/-- The identifiers Go `oidCh` emits for one oplog record: the insert
branch reads `_id` from the payload `Object`, the update branch from the
selector `QueryObject`. -/
def oidsOf (o : Oplog) : List String :=
  (if o.Operation == "i" then idOf o.Object else []) ++
  (if o.Operation == "u" then idOf o.QueryObject else [])

/-- Go `oidCh` over a whole (finite) record channel.  Its type also
witnesses that the extractor has no error output: it only ever narrows
the stream. -/
def oidList (l : List Oplog) : List String := l.flatMap oidsOf

/-- Whether the `_id` field of a document is present with ObjectId type. -/
def hasObjectIdField (d : BsonDoc) : Bool :=
  match lookupField d "_id" with
  | some (BsonValue.objectId _) => true
  | _ => false

/-- The concrete insert record of the extraction-correctness property:
payload `{_id: "abc", value: 5}`. -/
def insertAbc : Oplog :=
  { Timestamp := 7, HistoryID := 1, MongoVersion := 2, Operation := "i",
    Namespace := "metrics.raw",
    Object := [("_id", BsonValue.objectId "abc"), ("value", BsonValue.int 5)],
    QueryObject := [] }

/-- The concrete update record of the extraction-correctness property:
selector `{_id: "abc"}`, payload `{$set: {value: 7}}`. -/
def updateAbc : Oplog :=
  { Timestamp := 8, HistoryID := 2, MongoVersion := 2, Operation := "u",
    Namespace := "metrics.raw",
    Object := [("$set", BsonValue.doc [("value", BsonValue.int 7)])],
    QueryObject := [("_id", BsonValue.objectId "abc")] }

/-- An insert record with no `_id` field in its payload. -/
def insertNoId : Oplog :=
  { Timestamp := 9, HistoryID := 3, MongoVersion := 2, Operation := "i",
    Namespace := "metrics.raw",
    Object := [("value", BsonValue.int 5)],
    QueryObject := [] }

/-! ## The tailing query -/

/-- Equality of bson scalars, as the conditions of the tailing query use
it (no document-valued comparison occurs in the queries modelled). -/
def bsonEq : BsonValue → BsonValue → Bool
  | BsonValue.objectId a, BsonValue.objectId b => a == b
  | BsonValue.str a, BsonValue.str b => a == b
  | BsonValue.int a, BsonValue.int b => a == b
  | _, _ => false

/-- Strict bson ordering on scalars of equal type, as `$gt` uses it. -/
def bsonLt : BsonValue → BsonValue → Bool
  | BsonValue.int a, BsonValue.int b => a < b
  | BsonValue.str a, BsonValue.str b => a < b
  | _, _ => false

/-- One condition of a bson.M query: a literal equality, an operator
document `{$gt: v}` / `{$gte: v}`, or `{$in: [...]}`. -/
inductive Cond where
  | eqv (v : BsonValue)
  | gt (v : BsonValue)
  | gte (v : BsonValue)
  | inList (vs : List BsonValue)

/-- A bson.M query: one condition per named field. -/
abbrev MongoQuery := List (String × Cond)

/-- The fields of an oplog document, by bson name. -/
def oplogField (o : Oplog) : String → Option BsonValue
  | "ts" => some (BsonValue.int o.Timestamp)
  | "h" => some (BsonValue.int o.HistoryID)
  | "v" => some (BsonValue.int o.MongoVersion)
  | "op" => some (BsonValue.str o.Operation)
  | "ns" => some (BsonValue.str o.Namespace)
  | "o" => some (BsonValue.doc o.Object)
  | "o2" => some (BsonValue.doc o.QueryObject)
  | _ => none

/-- Evaluation of one query condition against a (possibly absent) field. -/
def evalCond (c : Cond) : Option BsonValue → Bool
  | none => false
  | some v =>
    match c with
    | Cond.eqv w => bsonEq v w
    | Cond.gt w => bsonLt w v
    | Cond.gte w => bsonLt w v || bsonEq v w
    | Cond.inList ws => ws.any (bsonEq v)

/-- Whether an oplog record satisfies every condition of a query. -/
def matchesQuery (q : MongoQuery) (o : Oplog) : Bool :=
  q.all (fun f => evalCond f.2 (oplogField o f.1))

/-- The tailing query built in `main` of the pipeline program
(src/unnamed/part_000): `{ts: {$gt: resumeTs}, ns: "metrics.raw",
op: {$in: ["i", "u"]}}`, where `resumeTs` is the timestamp of the most
recent oplog record found at startup. -/
def mainQuery (resumeTs : Int) : MongoQuery :=
  [("ts", Cond.gt (BsonValue.int resumeTs)),
   ("ns", Cond.eqv (BsonValue.str "metrics.raw")),
   ("op", Cond.inList [BsonValue.str "i", BsonValue.str "u"])]

/-- The query of the stand-alone demo tailer (src/tail/main.go):
`{ts: {$gte: lastTs}}` — greater-or-equal, and no namespace or operation
filter.  Modelled for contrast; the subscription of the pipeline is
`mainQuery`. -/
def tailDemoQuery (lastTs : Int) : MongoQuery :=
  [("ts", Cond.gte (BsonValue.int lastTs))]

/-! ## The pipeline orchestrator -/

/-- An error surfaced by the pipeline: either the terminal error of the
tailing cursor (`iter.Err()` / `iter.Close()` sent on the error channel
of `oplogCh`, e.g. a broken stream), or an error returned by `stats` for
some identifier. -/
inductive PipelineErr where
  | stream (msg : String)
  | stage (e : StatsErr)
deriving DecidableEq

/-- The consumption loop of `main` plus the final receive on the error
channel: each extracted identifier is processed in order by `stats`; the
first `stats` error panics the process at once — the remaining
identifiers are never consumed; once the identifier channel is exhausted,
the terminal error of the tailing cursor, if any, is received and panics
the process.  A panic is modelled as returning the summary store as it
stands together with the surfaced error. -/
def runOids (es : RawStore) : SummaryStore → List String → Option String →
    SummaryStore × Option PipelineErr
  | ss, [], streamErr => (ss, streamErr.map PipelineErr.stream)
  | ss, oid :: rest, streamErr =>
    match stats es ss oid with
    | Except.error e => (ss, some (PipelineErr.stage e))
    | Except.ok ss2 => runOids es ss2 rest streamErr

/-- The whole pipeline of `main` on one finite run of the tailing cursor:
the records delivered before the cursor stopped, then the terminal error
(if any) sent on the error channel. -/
def runPipeline (es : RawStore) (ss : SummaryStore) (records : List Oplog)
    (streamErr : Option String) : SummaryStore × Option PipelineErr :=
  runOids es ss (oidList records) streamErr

/-! ## The slice heap for the no-mutation property

Go passes `raw` by value, but `raw.Values` is a slice whose backing array
is shared with the caller.  To see that `rawToSummary` leaves it intact we
re-run the body over an explicit heap of slice backing arrays: the body
reads the observations through the slice reference of the argument,
allocates a fresh `[]float64` (the `make` plus the copy loop), and hands
only that fresh slice to the in-place `sort.Float64s`. -/

/-- A heap cell: the backing array of one slice — a `[]float64` or the
`[]Datapoint` of the raw series. -/
inductive HeapCell where
  | floats (xs : List ℚ)
  | points (ps : List Datapoint)
deriving DecidableEq

/-- The slice heap: cell `i` is the backing array of reference `i`. -/
abbrev SliceHeap := List HeapCell

/-- `Raw` as seen with slice aliasing explicit: `valuesRef` points at the
backing array holding the observations. -/
structure RawRef where
  Key : String
  At : Int
  valuesRef : Nat
deriving DecidableEq

/-- The datapoints a cell holds (empty for a float cell). -/
def HeapCell.pointsOf : HeapCell → List Datapoint
  | HeapCell.points ps => ps
  | HeapCell.floats _ => []

/-- The floats a cell holds (empty for a datapoint cell). -/
def HeapCell.floatsOf : HeapCell → List ℚ
  | HeapCell.floats xs => xs
  | HeapCell.points _ => []

def readPoints (h : SliceHeap) (r : Nat) : List Datapoint :=
  (h.getD r (HeapCell.points [])).pointsOf

def readFloats (h : SliceHeap) (r : Nat) : List ℚ :=
  (h.getD r (HeapCell.floats [])).floatsOf

/-- `sort.Float64s(v)`: sorts the referenced backing array in place. -/
def sortInPlace (h : SliceHeap) (r : Nat) : SliceHeap :=
  match h.getD r (HeapCell.floats []) with
  | HeapCell.floats xs => h.set r (HeapCell.floats (sortFloat64s xs))
  | HeapCell.points _ => h

/-- The body of Go `rawToSummary` over the explicit slice heap: read the
observations through the reference held by the argument, allocate a fresh
`[]float64` with the copied values, sort that fresh slice in place, and
summarize from it.  The backing array of the argument is never written. -/
def rawToSummaryHeap (h : SliceHeap) (raw : RawRef) :
    SliceHeap × Option Summary :=
  let ps := readPoints h raw.valuesRef
  let vref := h.length
  let h1 := h ++ [HeapCell.floats (ps.map Datapoint.Value)]
  let h2 := sortInPlace h1 vref
  (h2, summarize raw.Key raw.At (readFloats h2 vref))

/-! ## Lemmas -/

lemma sorted_sortFloat64s (xs : List ℚ) :
    float64sAreSorted (sortFloat64s xs) = true := by
  simp only [float64sAreSorted, sortFloat64s, decide_eq_true_eq]
  exact List.sorted_insertionSort _ xs

lemma length_sortFloat64s (xs : List ℚ) :
    (sortFloat64s xs).length = xs.length :=
  (List.perm_insertionSort _ xs).length_eq

lemma empiricalQuantile_cons (fidx x cumsum : ℚ) (rest : List ℚ) :
    empiricalQuantile fidx (x :: rest) cumsum =
      if fidx ≤ cumsum + 1 then some x
      else empiricalQuantile fidx rest (cumsum + 1) := rfl

lemma empiricalQuantile_total (xs : List ℚ) :
    ∀ (fidx cumsum : ℚ), xs ≠ [] → fidx ≤ cumsum + xs.length →
      ∃ q, empiricalQuantile fidx xs cumsum = some q := by
  induction xs with
  | nil => intro _ _ h _; exact absurd rfl h
  | cons x rest ih =>
    intro fidx cumsum _ hle
    by_cases hc : fidx ≤ cumsum + 1
    · exact ⟨x, by rw [empiricalQuantile_cons, if_pos hc]⟩
    · cases rest with
      | nil =>
        exfalso; apply hc; simpa using hle
      | cons y t =>
        obtain ⟨q, hq⟩ := ih fidx (cumsum + 1) (by simp)
          (by simp only [List.length_cons] at hle ⊢; push_cast at hle ⊢; linarith)
        exact ⟨q, by rw [empiricalQuantile_cons, if_neg hc]; exact hq⟩

lemma quantile_total (p : ℚ) (xs : List ℚ) (h0 : 0 ≤ p) (h1 : p ≤ 1)
    (hs : float64sAreSorted xs = true) (hne : xs ≠ []) :
    ∃ q, quantile p xs = some q := by
  have hbound : ¬(p < 0 ∨ 1 < p) := by push_neg; exact ⟨h0, h1⟩
  have hfidx : p * (xs.length : ℚ) ≤ 0 + (xs.length : ℚ) := by
    have := mul_le_mul_of_nonneg_right h1 (Nat.cast_nonneg (α := ℚ) xs.length)
    simpa using this
  obtain ⟨q, hq⟩ := empiricalQuantile_total xs (p * xs.length) 0 hne hfidx
  exact ⟨q, by simp [quantile, hbound, hs, hq]⟩

lemma upsert_idem (k : String) (a : Int) (doc : Summary)
    (hdoc : matchesSelector k a doc = true) :
    ∀ ss : SummaryStore, upsert k a doc (upsert k a doc ss) = upsert k a doc ss := by
  intro ss
  induction ss with
  | nil => simp [upsert, hdoc]
  | cons t ts ih =>
    by_cases ht : matchesSelector k a t = true
    · simp [upsert, ht, hdoc]
    · simp only [upsert, if_neg ht, ih]

lemma stats_fixpoint (es : RawStore) (ss ss2 : SummaryStore) (oid : String)
    (h : stats es ss oid = Except.ok ss2) :
    stats es ss2 oid = Except.ok ss2 := by
  unfold stats at h ⊢
  cases hf : findRaw es oid with
  | none => simp only [hf] at h; simp at h
  | some raw =>
    simp only [hf] at h ⊢
    cases hr : rawToSummary raw with
    | none => simp only [hr] at h; simp at h
    | some s =>
      simp only [hr, Except.ok.injEq] at h ⊢
      have hsel : matchesSelector s.Key s.At s = true := by
        simp [matchesSelector]
      rw [← h, upsert_idem s.Key s.At s hsel]

lemma set_concat (h : SliceHeap) (c c2 : HeapCell) :
    (h ++ [c]).set h.length c2 = h ++ [c2] := by
  induction h with
  | nil => rfl
  | cons a t ih => simp [List.set, ih]

lemma getD_concat (h : SliceHeap) (c d : HeapCell) :
    (h ++ [c]).getD h.length d = c := by
  simp [List.getD, List.getElem?_append_right (Nat.le_refl h.length)]

lemma getD_concat_lt (h : SliceHeap) (c d : HeapCell) (r : Nat)
    (hr : r < h.length) : (h ++ [c]).getD r d = h.getD r d := by
  simp [List.getD, List.getElem?_append_left hr]

/-- Sorting the freshly appended slice rewrites only that last cell. -/
lemma sortInPlace_concat (h : SliceHeap) (xs : List ℚ) :
    sortInPlace (h ++ [HeapCell.floats xs]) h.length =
      h ++ [HeapCell.floats (sortFloat64s xs)] := by
  unfold sortInPlace
  rw [getD_concat]
  exact set_concat h (HeapCell.floats xs) (HeapCell.floats (sortFloat64s xs))

/-! ## The claims -/

/-- C1 counterexample: on the values 1..10 the 50th percentile the program
computes is 5, not the claimed 5.5 — the gonum `stat.Empirical` quantile
returns an actual sample element (the first whose cumulative count reaches
`p·n`), it does not interpolate at rank `p·(n−1)`. -/
theorem C1_p50_counterexample :
    (rawToSummary raw10).map Summary.P50 = some 5 ∧
    (rawToSummary raw10).map Summary.P50 ≠ some (11 / 2 : ℚ) := by
  norm_num [rawToSummary, raw10, summarize, sortFloat64s, quantile,
    float64sAreSorted, empiricalQuantile, List.insertionSort, List.orderedInsert]

/-- C1 (amended): for the sorted input values 1..10, `rawToSummary` yields
min = 1, max = 10 and 50th percentile = 5: the empirical quantile returns
the smallest sorted value whose cumulative count reaches `p·n`. -/
theorem C1_summary_of_one_to_ten :
    (rawToSummary raw10).map Summary.Min = some 1 ∧
    (rawToSummary raw10).map Summary.Max = some 10 ∧
    (rawToSummary raw10).map Summary.P50 = some 5 := by
  norm_num [rawToSummary, raw10, summarize, sortFloat64s, quantile,
    float64sAreSorted, empiricalQuantile, List.insertionSort, List.orderedInsert]

/-- C2: the tailing subscription of the pipeline requests exactly the
records with position strictly greater than the resolved resume position,
in the target namespace, with operation kind insert or update. -/
theorem C2_subscription_filter (resumeTs : Int) (o : Oplog) :
    matchesQuery (mainQuery resumeTs) o = true ↔
      (resumeTs < o.Timestamp ∧ o.Namespace = "metrics.raw" ∧
        (o.Operation = "i" ∨ o.Operation = "u")) := by
  simp [matchesQuery, mainQuery, evalCond, oplogField, bsonEq, bsonLt,
    List.all_cons, decide_eq_true_eq]

/-- C3: for an insert record whose payload carries an ObjectId `_id`, the
extractor yields exactly that identifier. -/
theorem C3_insert_extracts_payload_id (o : Oplog) (hex : String)
    (hop : o.Operation = "i")
    (hid : lookupField o.Object "_id" = some (BsonValue.objectId hex)) :
    oidsOf o = [hex] := by
  simp [oidsOf, idOf, hop, hid]

/-- C3 witness: the record with payload `{_id: "abc", value: 5}` yields
`"abc"`. -/
theorem C3_insert_extracts_payload_id_witness : oidsOf insertAbc = ["abc"] :=
  C3_insert_extracts_payload_id insertAbc "abc" rfl rfl

/-- C4: for an update record whose selector carries an ObjectId `_id`, the
extractor yields exactly that identifier, and the payload is never
consulted: replacing the payload by any document leaves the result
unchanged. -/
theorem C4_update_extracts_selector_id (o : Oplog) (hex : String)
    (hop : o.Operation = "u")
    (hid : lookupField o.QueryObject "_id" = some (BsonValue.objectId hex)) :
    oidsOf o = [hex] ∧
    ∀ payload : BsonDoc, oidsOf { o with Object := payload } = [hex] := by
  constructor
  · simp [oidsOf, idOf, hop, hid]
  · intro payload
    simp [oidsOf, idOf, hop, hid]

/-- C4 witness: the update with selector `{_id: "abc"}` and payload
`{$set: {value: 7}}` yields `"abc"`, from the selector. -/
theorem C4_update_extracts_selector_id_witness :
    oidsOf updateAbc = ["abc"] ∧
    ∀ payload : BsonDoc, oidsOf { updateAbc with Object := payload } = ["abc"] :=
  C4_update_extracts_selector_id updateAbc "abc" rfl rfl

/-- C5: a record whose `_id` is absent or not an ObjectId (in the payload
for inserts, in the selector for updates) yields no identifier, and the
stream continues with the remaining records; `oidCh` has no error output
at all (see the type of `oidList`), so the drop is silent. -/
theorem C5_silent_drop (o : Oplog) (rest : List Oplog)
    (hobj : hasObjectIdField o.Object = false)
    (hsel : hasObjectIdField o.QueryObject = false) :
    oidsOf o = [] ∧ oidList (o :: rest) = oidList rest := by
  have hnil : ∀ d : BsonDoc, hasObjectIdField d = false → idOf d = [] := by
    intro d h
    unfold idOf
    unfold hasObjectIdField at h
    cases hl : lookupField d "_id" with
    | none => rfl
    | some v =>
      cases v with
      | objectId hex => simp only [hl] at h; exact absurd h (by decide)
      | str s => rfl
      | int n => rfl
      | doc fs => rfl
  have hnone : oidsOf o = [] := by
    simp [oidsOf, hnil o.Object hobj, hnil o.QueryObject hsel]
  exact ⟨hnone, by simp [oidList, hnone]⟩

/-- C5 witness: the insert without `_id` yields nothing and the stream
continues with the next record. -/
theorem C5_silent_drop_witness :
    oidsOf insertNoId = [] ∧
    oidList [insertNoId, insertAbc] = oidList [insertAbc] :=
  C5_silent_drop insertNoId [insertAbc] rfl rfl

/-- C6: recomputation is idempotent — for the same raw snapshot and the
same identifier, any positive number of recompute-and-upsert rounds leaves
the summary store in the identical state (`rawToSummary` is a pure
function, and replacing the stored summary with an equal document is a
no-op). -/
theorem C6_recompute_idempotent (es : RawStore) (ss : SummaryStore)
    (oid : String) (n m : Nat) (hn : 1 ≤ n) (hm : 1 ≤ m) :
    statsRepeat es oid n ss = statsRepeat es oid m ss := by
  have key : ∀ k : Nat, statsRepeat es oid (k + 1) ss = statsRepeat es oid 1 ss := by
    intro k
    induction k with
    | zero => rfl
    | succ j ih =>
      cases hs : stats es ss oid with
      | error e =>
        simp [statsRepeat, hs]
      | ok ss2 =>
        have fix := stats_fixpoint es ss ss2 oid hs
        have step : ∀ i : Nat, statsRepeat es oid i ss2 = Except.ok ss2 := by
          intro i
          induction i with
          | zero => rfl
          | succ i2 ih2 => simp [statsRepeat, fix, ih2]
        simp [statsRepeat, hs, fix, step]
  obtain ⟨n2, rfl⟩ := Nat.exists_eq_add_of_le hn
  obtain ⟨m2, rfl⟩ := Nat.exists_eq_add_of_le hm
  rw [Nat.add_comm 1 n2, Nat.add_comm 1 m2, key n2, key m2]

/-- C6 witness: one and two recomputation rounds coincide on a concrete
store. -/
theorem C6_recompute_idempotent_witness :
    statsRepeat [("a", raw10)] "a" 1 [] = statsRepeat [("a", raw10)] "a" 2 [] :=
  C6_recompute_idempotent [("a", raw10)] [] "a" 1 2 (by decide) (by decide)

/-- C7: the persisted summary is keyed by the composite (series key,
bucket start time) taken from the loaded raw series: the summary built for
`raw` carries `raw.Key` and `raw.At`, and `stats` upserts it with selector
`{key: raw.Key, at: raw.At}` (never the entity id it was looked up by). -/
theorem C7_summary_keyed_by_key_and_at (es : RawStore) (ss : SummaryStore)
    (oid : String) (raw : Raw) (hfind : findRaw es oid = some raw) :
    (∀ s, rawToSummary raw = some s → s.Key = raw.Key ∧ s.At = raw.At) ∧
    stats es ss oid =
      (match rawToSummary raw with
       | none => Except.error StatsErr.quantilePanic
       | some s => Except.ok (upsert raw.Key raw.At s ss)) := by
  have hkeys : ∀ s, rawToSummary raw = some s → s.Key = raw.Key ∧ s.At = raw.At := by
    intro s hs
    unfold rawToSummary summarize at hs
    simp only [Option.bind_eq_some, Option.some.injEq] at hs
    obtain ⟨q0, -, q1, -, q2, -, q3, -, q4, -, q5, -, q6, -, q7, -, q8, -, hs⟩ := hs
    rw [← hs]
    exact ⟨rfl, rfl⟩
  refine ⟨hkeys, ?_⟩
  unfold stats
  simp only [hfind]
  cases hr : rawToSummary raw with
  | none => simp only [hr]
  | some s =>
    obtain ⟨hk, ha⟩ := hkeys s hr
    simp only [hr]
    rw [hk, ha]

/-- C7 witness: on a concrete store, the upsert of the recomputed summary
for raw10 is keyed by (raw10.Key, raw10.At). -/
theorem C7_summary_keyed_by_key_and_at_witness :
    (∀ s, rawToSummary raw10 = some s → s.Key = raw10.Key ∧ s.At = raw10.At) ∧
    stats [("a", raw10)] [] "a" =
      (match rawToSummary raw10 with
       | none => Except.error StatsErr.quantilePanic
       | some s => Except.ok (upsert raw10.Key raw10.At s [])) :=
  C7_summary_keyed_by_key_and_at [("a", raw10)] [] "a" raw10 (by decide)

/-- C8: the first error from any stage halts the pipeline with the error
surfaced.  (a) If `stats` fails on an identifier, the run ends there with
that error: whatever identifiers follow are never processed and the store
is left exactly as it was before the failing call, whatever the terminal
state of the stream.  (b) A broken stream surfaces its error once the
records delivered before the breakage are consumed. -/
theorem C8_first_error_halts :
    (∀ (es : RawStore) (ss : SummaryStore) (oid : String) (rest : List String)
        (streamErr : Option String) (e : StatsErr),
      stats es ss oid = Except.error e →
        runOids es ss (oid :: rest) streamErr = (ss, some (PipelineErr.stage e))) ∧
    (∀ (es : RawStore) (ss : SummaryStore) (msg : String),
      runOids es ss [] (some msg) = (ss, some (PipelineErr.stream msg))) := by
  constructor
  · intro es ss oid rest streamErr e he
    simp [runOids, he]
  · intro es ss msg
    rfl

/-- C8 witness: with an empty raw store, the first identifier fails with
NotFound and the second is never processed; a bare broken-stream run
surfaces the stream error. -/
theorem C8_first_error_halts_witness :
    runOids [] [] ["a", "b"] none = ([], some (PipelineErr.stage StatsErr.notFound)) ∧
    runOids [] [] [] (some "StreamBroken") =
      ([], some (PipelineErr.stream "StreamBroken")) :=
  ⟨C8_first_error_halts.1 [] [] "a" ["b"] none StatsErr.notFound rfl,
   C8_first_error_halts.2 [] [] "StreamBroken"⟩

/-- C9: summary recomputation silently assumes at least one observation —
`rawToSummary` succeeds on every raw series with a non-empty observation
list, but on an empty list the empirical quantile scan falls through to
the gonum panic, so the whole computation fails. -/
theorem C9_empty_series_panics :
    (∀ raw : Raw, raw.Values ≠ [] → ∃ s, rawToSummary raw = some s) ∧
    (∀ raw : Raw, raw.Values = [] → rawToSummary raw = none) := by
  constructor
  · intro raw hne
    have hsorted := sorted_sortFloat64s (raw.Values.map Datapoint.Value)
    have hvne : sortFloat64s (raw.Values.map Datapoint.Value) ≠ [] := by
      intro h
      have := length_sortFloat64s (raw.Values.map Datapoint.Value)
      rw [h] at this
      exact hne (by simpa using this.symm)
    obtain ⟨q0, h0⟩ := quantile_total 0 _ (by norm_num) (by norm_num) hsorted hvne
    obtain ⟨q1, h1⟩ := quantile_total 1 _ (by norm_num) (by norm_num) hsorted hvne
    obtain ⟨q2, h2⟩ := quantile_total (2 / 100) _ (by norm_num) (by norm_num) hsorted hvne
    obtain ⟨q3, h3⟩ := quantile_total (9 / 100) _ (by norm_num) (by norm_num) hsorted hvne
    obtain ⟨q4, h4⟩ := quantile_total (25 / 100) _ (by norm_num) (by norm_num) hsorted hvne
    obtain ⟨q5, h5⟩ := quantile_total (50 / 100) _ (by norm_num) (by norm_num) hsorted hvne
    obtain ⟨q6, h6⟩ := quantile_total (75 / 100) _ (by norm_num) (by norm_num) hsorted hvne
    obtain ⟨q7, h7⟩ := quantile_total (91 / 100) _ (by norm_num) (by norm_num) hsorted hvne
    obtain ⟨q8, h8⟩ := quantile_total (98 / 100) _ (by norm_num) (by norm_num) hsorted hvne
    refine ⟨{ Key := raw.Key, At := raw.At, Min := q0, Max := q1, P2 := q2,
              P9 := q3, P25 := q4, P50 := q5, P75 := q6, P91 := q7, P98 := q8 }, ?_⟩
    simp [rawToSummary, summarize, h0, h1, h2, h3, h4, h5, h6, h7, h8]
  · intro raw h
    simp [rawToSummary, summarize, h, sortFloat64s, List.insertionSort,
      quantile, float64sAreSorted, empiricalQuantile]

/-- C9 witness: the non-empty series 1..10 yields a summary; the empty
series fails. -/
theorem C9_empty_series_panics_witness :
    (∃ s, rawToSummary raw10 = some s) ∧ rawToSummary rawEmpty = none :=
  ⟨C9_empty_series_panics.1 raw10 (by decide),
   C9_empty_series_panics.2 rawEmpty rfl⟩

/-- C10: computing a summary leaves the input raw series untouched — the
backing array of `raw.Values` is byte-identical afterwards (the fresh copy
is what gets sorted), and the summary produced agrees with the pure
`rawToSummary` of the unchanged observations (key and bucket start time
are the fields of the argument itself, passed by value). -/
theorem C10_input_not_mutated (h : SliceHeap) (raw : RawRef)
    (href : raw.valuesRef < h.length) :
    (rawToSummaryHeap h raw).1.getD raw.valuesRef (HeapCell.points []) =
        h.getD raw.valuesRef (HeapCell.points []) ∧
    readPoints (rawToSummaryHeap h raw).1 raw.valuesRef =
        readPoints h raw.valuesRef ∧
    (rawToSummaryHeap h raw).2 =
      rawToSummary { Key := raw.Key, At := raw.At,
                     Values := readPoints h raw.valuesRef } := by
  have hheap : (rawToSummaryHeap h raw).1 =
      h ++ [HeapCell.floats
        (sortFloat64s ((readPoints h raw.valuesRef).map Datapoint.Value))] :=
    sortInPlace_concat h ((readPoints h raw.valuesRef).map Datapoint.Value)
  have hcell : (rawToSummaryHeap h raw).1.getD raw.valuesRef (HeapCell.points []) =
      h.getD raw.valuesRef (HeapCell.points []) := by
    rw [hheap, getD_concat_lt _ _ _ _ href]
  refine ⟨hcell, congrArg HeapCell.pointsOf hcell, ?_⟩
  show summarize raw.Key raw.At
      (readFloats (rawToSummaryHeap h raw).1 h.length) = rawToSummary _
  rw [rawToSummary]
  have hread : readFloats (rawToSummaryHeap h raw).1 h.length =
      sortFloat64s ((readPoints h raw.valuesRef).map Datapoint.Value) := by
    rw [show readFloats (rawToSummaryHeap h raw).1 h.length =
        ((rawToSummaryHeap h raw).1.getD h.length (HeapCell.floats [])).floatsOf
      from rfl, hheap, getD_concat]
    rfl
  rw [hread]

/-- C10 witness: a concrete one-cell heap holding one observation. -/
theorem C10_input_not_mutated_witness :
    (rawToSummaryHeap [HeapCell.points [⟨0, 1⟩]] ⟨"k", 0, 0⟩).1.getD 0
        (HeapCell.points []) =
      ([HeapCell.points [⟨0, 1⟩]] : SliceHeap).getD 0 (HeapCell.points []) ∧
    readPoints (rawToSummaryHeap [HeapCell.points [⟨0, 1⟩]] ⟨"k", 0, 0⟩).1 0 =
      readPoints [HeapCell.points [⟨0, 1⟩]] 0 ∧
    (rawToSummaryHeap [HeapCell.points [⟨0, 1⟩]] ⟨"k", 0, 0⟩).2 =
      rawToSummary { Key := "k", At := 0,
                     Values := readPoints [HeapCell.points [⟨0, 1⟩]] 0 } :=
  C10_input_not_mutated [HeapCell.points [⟨0, 1⟩]] ⟨"k", 0, 0⟩ (by decide)

end OplogAbuse
